import Mathlib

set_option maxRecDepth 16384
set_option synthInstance.maxSize 1024

/-!
# Verification of the TinyNightLight firmware core

Shallow embedding of `src/software/TinyNightLight.ino`:

* the NeoPixel byte/bit transmitter (`NEO_sendByte`, `NEO_writeColor`),
* the color transforms (`sqr`, `NEO_writeHue`, `NEO_writeWhite`),
* the quadrature rotary-encoder state machine (`ENCState`, `ENC_set`,
  `ENC_get`, the pin-change interrupt handler `ISR`),
* the four-state application controller (`SysState`, `pressButton`,
  `ANIM_tick`).

8-bit unsigned machine values (`uint8_t`) are modelled as `Nat` with an
explicit `% 256` exactly where the C code can overflow; 16-bit signed values
(`int16_t`) are modelled as `Int` (every quantity the firmware stores in them
is bounded far below 2^15, so two's-complement wrap never occurs on the
reachable states the claims are about).
-/

/-! ## NeoPixel transmitter (lines 99-119 of the source) -/

/-- One iteration step of `NEO_sendByte`'s bit loop: the emitted bit is bit 7
of the current byte (`sbrs byte,7`), and the byte is then shifted left one
place in 8-bit arithmetic (`add byte,byte`). The first argument is the loop
counter (8 at the top call). -/
def sendBits : Nat → Nat → List Bool
  | 0, _ => []
  | i + 1, byte => Nat.testBit byte 7 :: sendBits i (byte * 2 % 256)

/-- Function `NEO_sendByte`: transmit one byte, MSB first (source lines 99-112).
The result is the sequence of logical bit values put on the wire. -/
def NEO_sendByte (byte : Nat) : List Bool :=
  sendBits 8 byte

/-- Function `NEO_writeColor(r,g,b)` (source lines 115-119): sends the green byte, then
the red byte, then the blue byte. The result is the byte sequence in wire
order. (The `cli`/`sei` interrupt masking around it is a timing concern with
no effect on the emitted data.) -/
def NEO_writeColor (r g b : Nat) : List Nat :=
  [g, r, b]

/-- Byte stream of a whole frame: the pixels' `NEO_writeColor` outputs
back to back. -/
def NEO_frame (px : List (Nat × Nat × Nat)) : List Nat :=
  px.flatMap fun p => NEO_writeColor p.1 p.2.1 p.2.2

/-- Bit stream of a whole frame. -/
def NEO_frameBits (px : List (Nat × Nat × Nat)) : List Bool :=
  (NEO_frame px).flatMap NEO_sendByte

/-! ## Color transforms (lines 122-147) -/

/-- The accumulator loop of `sqr` (source lines 122-126): `result += x`
performed in `uint8_t` arithmetic, `i` times. -/
def sqrAux : Nat → Nat → Nat → Nat
  | 0, _, result => result
  | i + 1, x, result => sqrAux i x ((result + x) % 256)

/-- Function `sqr(x)` (source lines 122-126): adds `x` to an 8-bit accumulator `x`
times, i.e. computes `x*x` in `uint8_t` arithmetic. -/
def sqr (x : Nat) : Nat :=
  sqrAux x x 0

/-- The RGB triple selected by `NEO_writeHue` (source lines 129-141) before it
is handed to `NEO_writeColor`; `none` when the `switch` falls into its
`default` branch and no pixel is written. `hue >> 4` is `/ 16`,
`hue &= 15` is `% 16`. (`bright` is at most 15 on every call the firmware
makes, so the `uint8_t` computation `(15 - bright) >> 1` never underflows and
agrees with truncated `Nat` subtraction.) -/
def hueRGB (hue bright : Nat) : Option (Nat × Nat × Nat) :=
  let phase := hue / 16
  let h := hue % 16
  let br := (15 - bright) >>> 1
  let step := (sqr h >>> br) + 1
  let nstep := (sqr (15 - h) >>> br) + 1
  if phase = 0 then some (nstep, step, 0)
  else if phase = 1 then some (0, nstep, step)
  else if phase = 2 then some (step, 0, nstep)
  else none

/-- Function `NEO_writeHue(hue,bright)` (source lines 129-141): the byte stream the
call emits — the selected triple sent through `NEO_writeColor`, or nothing in
the `default` branch. -/
def NEO_writeHue (hue bright : Nat) : List Nat :=
  match hueRGB hue bright with
  | some (r, g, b) => NEO_writeColor r g b
  | none => []

/-- Red channel of `hueRGB` (0 when no pixel is written). -/
def chanR (hue bright : Nat) : Nat :=
  ((hueRGB hue bright).getD (0, 0, 0)).1

/-- Green channel of `hueRGB` (0 when no pixel is written). -/
def chanG (hue bright : Nat) : Nat :=
  ((hueRGB hue bright).getD (0, 0, 0)).2.1

/-- Blue channel of `hueRGB` (0 when no pixel is written). -/
def chanB (hue bright : Nat) : Nat :=
  ((hueRGB hue bright).getD (0, 0, 0)).2.2

/-- Function `NEO_writeWhite(bright)` (source lines 144-147): gamma-correct by squaring
and write the same value to all three channels. -/
def NEO_writeWhite (bright : Nat) : List Nat :=
  NEO_writeColor (sqr bright) (sqr bright) (sqr bright)

/-! ## Rotary encoder (lines 154-198) -/

/-- The encoder's global variables (source lines 154-155). `ENC_a0`, `ENC_b0`
hold the last sampled (inverted) levels of the A and B lines, `ENC_ab0` the
`A == B` parity at the last confirmed step, `ENC_loop` the wrap flag; the
`int16_t` counters are modelled as `Int`. -/
structure ENCState where
  a0 : Bool
  b0 : Bool
  ab0 : Bool
  loop : Bool
  count : Int
  countMin : Int
  countMax : Int
  countStep : Int
deriving DecidableEq, Repr

/-- Function `ENC_init` (source lines 158-167) with both encoder lines idle: the
pulled-up inputs read high, so `!pinRead` yields 0 for both stored levels and
`ENC_ab0 = (0 == 0)` is true. The counters are not initialized by `ENC_init`;
they are 0 here (C globals are zero-initialized). -/
def ENC_init : ENCState :=
  ⟨false, false, true, false, 0, 0, 0, 0⟩

/-- Function `ENC_set(rmin,rmax,rstep,rvalue,rloop)` (source lines 170-176):
`x << 1` on the `int16_t` parameters is `x * 2`. -/
def ENC_set (rmin rmax rstep rvalue : Int) (rloop : Bool) (s : ENCState) : ENCState :=
  { s with
    countMin := rmin * 2
    countMax := rmax * 2
    countStep := rstep
    count := rvalue * 2
    loop := rloop }

/-- Function `ENC_get()` (source lines 179-181): `ENC_count >> 1`, an arithmetic right
shift of an `int16_t`, i.e. floor division by 2. -/
def ENC_get (s : ENCState) : Int :=
  Int.fdiv s.count 2

/-- The total delta the interrupt handler adds to `ENC_count` on a genuine
step (source lines 191-192): `±ENC_countStep` by the `(a == b)` rule, applied
twice when the `(a == b)` parity differs from `ENC_ab0`. -/
def ENC_delta (a b : Bool) (s : ENCState) : Int :=
  let d : Int := if a == b then -s.countStep else s.countStep
  if (a == b) ≠ s.ab0 then d + d else d

/-- The clamp-or-wrap applied to `ENC_count` after the delta (source lines
193-194): first the lower bound is checked, then the upper bound. -/
def ENC_clamp (s : ENCState) (c : Int) : Int :=
  let c1 := if c < s.countMin then (if s.loop then s.countMax else s.countMin) else c
  if c1 > s.countMax then (if s.loop then s.countMin else s.countMax) else c1

/-- Handler `ISR(PCINT0_vect)` (source lines 184-198), as a function of the freshly
sampled (inverted) levels `a`, `b` of the two encoder lines: if A changed,
store it; if B also changed, store it, add `ENC_delta`, clamp or wrap, and
record the new `A == B` parity. -/
def ISR (a b : Bool) (s : ENCState) : ENCState :=
  if a ≠ s.a0 then
    if b ≠ s.b0 then
      { s with
        a0 := a
        b0 := b
        ab0 := (a == b)
        count := ENC_clamp s (s.count + ENC_delta a b s) }
    else { s with a0 := a }
  else s

/-- Run the interrupt handler on a sequence of sampled `(a, b)` level pairs,
oldest first. -/
def ENC_run (es : List (Bool × Bool)) (s : ENCState) : ENCState :=
  es.foldl (fun t e => ISR e.1 e.2 t) s

/-- The handler invocations produced by `k` detents of a clean clockwise
rotation. One detent is the level cycle
`(0,0) → (1,0) → (1,1) → (0,1) → (0,0)`; only the two A-line edges raise the
pin-change interrupt (only `PIN_ENC_A` is in `PCMSK`), and the handler then
samples the levels `(1,0)` and `(0,1)` respectively. -/
def cwSeq : Nat → List (Bool × Bool)
  | 0 => []
  | k + 1 => (true, false) :: (false, true) :: cwSeq k

/-- The handler invocations of `k` counter-clockwise detents: the level cycle
`(0,0) → (0,1) → (1,1) → (1,0) → (0,0)`, whose A-line edges sample `(1,1)`
and `(0,0)`. -/
def ccwSeq : Nat → List (Bool × Bool)
  | 0 => []
  | k + 1 => (true, true) :: (false, false) :: ccwSeq k

/-! ## Application controller (lines 204-282) -/

/-- The controller's state: `main`'s locals (source lines 206-211) plus the
LED-rail enable (`NEO_on`/`NEO_off`, the `PIN_ENABLE` direction bit) and the
encoder state. -/
structure SysState where
  state : Nat
  hue : Nat
  bright : Nat
  anim : Nat
  counter : Nat
  neoOn : Bool
  enc : ENCState
deriving DecidableEq, Repr

/-- The controller state at the top of `main`'s loop (source lines 206-211):
state 0, hue 0, brightness 5, animation phase 0, delay counter 8, LED rail
off. -/
def sysInit : SysState :=
  ⟨0, 0, 5, 0, 8, false, ENC_init⟩

/-- One confirmed press-and-release of the encoder button (source lines
269-280): `if(++state > 3) state = 0;` followed by the state-entry `switch`. -/
def pressButton (s : SysState) : SysState :=
  let st := if s.state + 1 > 3 then 0 else s.state + 1
  let s1 : SysState := { s with state := st }
  if st = 0 then { s1 with neoOn := false }
  else if st = 1 then
    { s1 with neoOn := true, enc := ENC_set 2 15 1 (s.bright : Int) false s.enc }
  else if st = 3 then
    { s1 with enc := ENC_set 0 48 1 (s.hue : Int) true s.enc }
  else s1

/-- The pixel loop of the animation step (source lines 242-247): 8 pixels,
starting hue `huey`, hue advanced by 6 after each pixel and wrapped onto the
48-step ring. Returns the emitted byte stream. -/
def animPixels : Nat → Nat → Nat → List Nat
  | 0, _, _ => []
  | i + 1, huey, bright =>
      NEO_writeHue huey bright
        ++ animPixels i (if huey + 6 > 47 then huey + 6 - 48 else huey + 6) bright

/-- One poll tick of state 2 (ANIMATE, source lines 241-252): `!--counter`
decrements the `uint8_t` delay counter; when it reaches zero, one animation
frame is emitted, the phase `anim` advances on the 48-step ring and the
counter is reloaded from `ENC_get()` (truncated to `uint8_t`). Returns the
new state and the emitted byte stream. -/
def ANIM_tick (s : SysState) : SysState × List Nat :=
  let c := (s.counter + 255) % 256
  if c = 0 then
    ({ s with
        anim := if s.anim + 1 > 47 then 0 else s.anim + 1
        counter := ((ENC_get s.enc) % 256).toNat },
     animPixels 8 s.anim s.bright)
  else ({ s with counter := c }, [])

/-- The state part of an ANIMATE poll tick. -/
def ANIM_step (s : SysState) : SysState :=
  (ANIM_tick s).1

/-! ## Claim theorems: color pipeline -/

/-- C4: for every pixel, the transmit path emits the three channel bytes in
wire order green then red then blue, each byte most-significant-bit first;
for a frame of 8 pixels all equal to `(r=255, g=0, b=0)` the emitted byte
stream is exactly 8 back-to-back repetitions of `0x00, 0xFF, 0x00` (and the
bit stream 8 repetitions of 8 low, 8 high, 8 low bits). -/
theorem C4_wire_order_msb_first :
    (∀ byte < 256, NEO_sendByte byte = (List.range 8).map fun i => Nat.testBit byte (7 - i))
    ∧ (∀ r g b : Nat,
        NEO_frameBits [(r, g, b)] = NEO_sendByte g ++ NEO_sendByte r ++ NEO_sendByte b)
    ∧ NEO_frame (List.replicate 8 (255, 0, 0)) = List.flatten (List.replicate 8 [0, 255, 0])
    ∧ NEO_frameBits (List.replicate 8 (255, 0, 0)) =
        List.flatten (List.replicate 8
          (List.replicate 8 false ++ List.replicate 8 true ++ List.replicate 8 false)) := by
  refine ⟨by decide, ?_, by decide, by decide⟩
  intro r g b
  simp [NEO_frameBits, NEO_frame, NEO_writeColor]

/-- Witness for C4 at `byte = 255`. -/
theorem C4_witness :
    NEO_sendByte 255 = (List.range 8).map fun i => Nat.testBit 255 (7 - i) :=
  C4_wire_order_msb_first.1 255 (by decide)

/-- C5: for every brightness `b ≤ 15` and hue `h ≤ 47`, `hueRGB` returns the
triple given by the ramp formula `step = (sqr(h mod 16) >> ((15-b) >> 1)) + 1`
and `nstep = (sqr(15 - h mod 16) >> ((15-b) >> 1)) + 1`, with exactly one
channel equal to 0 — the one selected by the phase `h / 16` — and the other
two strictly positive. -/
theorem C5_hueToColor_ramp :
    ∀ b ≤ 15, ∀ h ≤ 47,
      (h / 16 = 0 →
        hueRGB h b = some ((sqr (15 - h % 16) >>> ((15 - b) >>> 1)) + 1,
                           (sqr (h % 16) >>> ((15 - b) >>> 1)) + 1, 0)
        ∧ 0 < chanR h b ∧ 0 < chanG h b ∧ chanB h b = 0)
      ∧ (h / 16 = 1 →
        hueRGB h b = some (0, (sqr (15 - h % 16) >>> ((15 - b) >>> 1)) + 1,
                           (sqr (h % 16) >>> ((15 - b) >>> 1)) + 1)
        ∧ 0 < chanG h b ∧ 0 < chanB h b ∧ chanR h b = 0)
      ∧ (h / 16 = 2 →
        hueRGB h b = some ((sqr (h % 16) >>> ((15 - b) >>> 1)) + 1, 0,
                           (sqr (15 - h % 16) >>> ((15 - b) >>> 1)) + 1)
        ∧ 0 < chanR h b ∧ 0 < chanB h b ∧ chanG h b = 0) := by
  decide

/-- Witness for C5 at `h = 0`, `b = 15`. -/
theorem C5_witness :
    hueRGB 0 15 = some ((sqr (15 - 0 % 16) >>> ((15 - 15) >>> 1)) + 1,
                        (sqr (0 % 16) >>> ((15 - 15) >>> 1)) + 1, 0)
    ∧ 0 < chanR 0 15 ∧ 0 < chanG 0 15 ∧ chanB 0 15 = 0 :=
  (C5_hueToColor_ramp 15 (by decide) 0 (by decide)).1 (by decide)

/-- C6 counterexample: the non-zero channels are NOT linear functions of the
within-phase hue index. In phase 0 at brightness 15 the up-ramp (green)
channel takes the values 1, 2, 5 at indices 0, 1, 2 — successive differences
1 and 3, so no linear function matches it. -/
theorem C6_cex_not_linear :
    chanG 0 15 = 1 ∧ chanG 1 15 = 2 ∧ chanG 2 15 = 5
    ∧ chanG 1 15 - chanG 0 15 ≠ chanG 2 15 - chanG 1 15 := by
  decide

/-- C6 (amended): for every brightness `b ≤ 15`, within each of the 3 phases
of 16 hue steps the third channel is zero throughout, and the two non-zero
channels are monotone in the within-phase hue index — one (the `step`
channel) non-decreasing and the other (the `nstep` channel) non-increasing —
following the quadratic (gamma-style) ramp formula rather than a linear
one. -/
theorem C6_amended_monotone_ramp :
    ∀ b ≤ 15,
      (∀ i ≤ 15, chanB i b = 0 ∧ chanR (16 + i) b = 0 ∧ chanG (32 + i) b = 0)
      ∧ (∀ i < 15,
          (chanG i b ≤ chanG (i + 1) b ∧ chanR (i + 1) b ≤ chanR i b)
          ∧ (chanB (16 + i) b ≤ chanB (16 + i + 1) b ∧ chanG (16 + i + 1) b ≤ chanG (16 + i) b)
          ∧ (chanR (32 + i) b ≤ chanR (32 + i + 1) b ∧ chanB (32 + i + 1) b ≤ chanB (32 + i) b)) := by
  decide

/-- Witness for C6 (amended) at `b = 15`, `i = 0`. -/
theorem C6_amended_witness :
    chanB 0 15 = 0 ∧ chanR (16 + 0) 15 = 0 ∧ chanG (32 + 0) 15 = 0 :=
  (C6_amended_monotone_ramp 15 (by decide)).1 0 (by decide)

/-- C7: for every brightness `b ≤ 15`, `NEO_writeWhite b` produces three
equal channel bytes, each the square of `b`, and the channel value `sqr` is
monotonically non-decreasing on `[0, 15]`. -/
theorem C7_whiteAt_square_monotone :
    ∀ b2 ≤ 15, ∀ b1 ≤ b2,
      NEO_writeWhite b1 = [b1 * b1, b1 * b1, b1 * b1] ∧ sqr b1 ≤ sqr b2 := by
  decide

/-- Witness for C7 at `b1 = 10`, `b2 = 15`. -/
theorem C7_witness :
    NEO_writeWhite 10 = [10 * 10, 10 * 10, 10 * 10] ∧ sqr 10 ≤ sqr 15 :=
  C7_whiteAt_square_monotone 15 (by decide) 10 (by decide)

/-- C10: in the SOLID state the encoder is configured to `[0, 48]` with wrap,
and the value 48 — outside the 0..47 color-wheel domain — is reachable (here:
one clockwise detent from hue 47); for every brightness, `NEO_writeHue` with
`hue ≥ 48` takes the `default` branch of the phase switch and emits no bytes
at all, leaving the physical pixels holding the previously latched colors. -/
theorem C10_solid_hue48_no_emit :
    ENC_get (ENC_run [(true, false), (false, true)] (ENC_set 0 48 1 47 true ENC_init)) = 48
    ∧ ∀ bright hue : Nat, 48 ≤ hue → NEO_writeHue hue bright = [] := by
  refine ⟨by decide, ?_⟩
  intro bright hue h
  have h0 : ¬ hue / 16 = 0 := by omega
  have h1 : ¬ hue / 16 = 1 := by omega
  have h2 : ¬ hue / 16 = 2 := by omega
  simp [NEO_writeHue, hueRGB, h0, h1, h2]

/-- Witness for C10 at `hue = 48`, `bright = 5`. -/
theorem C10_witness : NEO_writeHue 48 5 = [] :=
  C10_solid_hue48_no_emit.2 5 48 (by decide)

/-! ## Encoder lemmas -/

/-- Reading a doubled count halves it exactly. -/
theorem fdiv_mul_two (x : Int) : Int.fdiv (x * 2) 2 = x := by
  rw [Int.fdiv_eq_ediv] <;> omega

/-- If the A level did not change, the handler does nothing. -/
theorem ISR_a_unchanged (a b : Bool) (s : ENCState) (h : a = s.a0) : ISR a b s = s := by
  simp [ISR, h]

/-- If A changed but B did not, only the stored A level is updated. -/
theorem ISR_b_unchanged (a b : Bool) (s : ENCState) (ha : a ≠ s.a0) (hb : b = s.b0) :
    ISR a b s = { s with a0 := a } := by
  simp [ISR, ha, hb]

/-- On a genuine step the handler stores both levels and the parity and
clamps the delta'd count. -/
theorem ISR_step (a b : Bool) (s : ENCState) (ha : a ≠ s.a0) (hb : b ≠ s.b0) :
    ISR a b s = { s with
      a0 := a
      b0 := b
      ab0 := (a == b)
      count := ENC_clamp s (s.count + ENC_delta a b s) } := by
  simp [ISR, ha, hb]

/-- The clamp is the identity on an in-range count. -/
theorem ENC_clamp_eq_self (s : ENCState) (c : Int)
    (h1 : s.countMin ≤ c) (h2 : c ≤ s.countMax) : ENC_clamp s c = c := by
  simp only [ENC_clamp]
  split_ifs <;> omega

/-- Whatever the input, the clamp returns an in-range count (bounds in
order). -/
theorem ENC_clamp_mem (s : ENCState) (c : Int) (h : s.countMin ≤ s.countMax) :
    s.countMin ≤ ENC_clamp s c ∧ ENC_clamp s c ≤ s.countMax := by
  simp only [ENC_clamp]
  split_ifs <;> omega

/-! ## Claim theorems: encoder -/

/-- C1: on every handler invocation, if both freshly sampled levels differ
from the stored ones the count changes by `-step` when the new levels are
equal and `+step` otherwise, doubled when the `(A==B)` parity flipped since
the last confirmed step (stated where the result is in bounds, the clamp
being C2's concern); if A did not change, or A changed but B did not, the
position is left unchanged. -/
theorem C1_edge_handler_delta :
    ∀ (s : ENCState) (a b : Bool),
      (a = s.a0 → ISR a b s = s)
      ∧ (a ≠ s.a0 → b = s.b0 → (ISR a b s).count = s.count)
      ∧ (a ≠ s.a0 → b ≠ s.b0 →
          s.countMin ≤ s.count + ENC_delta a b s →
          s.count + ENC_delta a b s ≤ s.countMax →
          (ISR a b s).count = s.count + ENC_delta a b s)
      ∧ ENC_delta a b s =
          (if (a == b) ≠ s.ab0 then 2 else 1) *
            (if a == b then -s.countStep else s.countStep) := by
  intro s a b
  refine ⟨fun h => ISR_a_unchanged a b s h, fun ha hb => ?_, fun ha hb h1 h2 => ?_, ?_⟩
  · rw [ISR_b_unchanged a b s ha hb]
  · rw [ISR_step a b s ha hb]
    exact ENC_clamp_eq_self s _ h1 h2
  · simp only [ENC_delta]
    split_ifs <;> ring

/-- Witness for C1: a genuine in-bounds step at a concrete state. -/
theorem C1_witness :
    (ENC_set 0 10 1 5 false ENC_init).countMin
        ≤ (ENC_set 0 10 1 5 false ENC_init).count
          + ENC_delta true true (ENC_set 0 10 1 5 false ENC_init)
    ∧ (ISR true true (ENC_set 0 10 1 5 false ENC_init)).count
        = (ENC_set 0 10 1 5 false ENC_init).count
          + ENC_delta true true (ENC_set 0 10 1 5 false ENC_init) :=
  ⟨by decide,
   (C1_edge_handler_delta (ENC_set 0 10 1 5 false ENC_init) true true).2.2.1
     (by decide) (by decide) (by decide) (by decide)⟩

/-- Overshooting the upper bound clamps to it, or wraps to the lower bound. -/
theorem ENC_clamp_over (s : ENCState) (c : Int)
    (h1 : s.countMin ≤ s.countMax) (h2 : s.countMax < c) :
    ENC_clamp s c = if s.loop then s.countMin else s.countMax := by
  simp only [ENC_clamp]
  split_ifs <;> omega

/-- Undershooting the lower bound clamps to it, or wraps to the upper bound. -/
theorem ENC_clamp_under (s : ENCState) (c : Int)
    (h1 : s.countMin ≤ s.countMax) (h2 : c < s.countMin) :
    ENC_clamp s c = if s.loop then s.countMax else s.countMin := by
  simp only [ENC_clamp]
  split_ifs <;> omega

/-- C2: `configure` with an in-range initial value establishes
`countMin ≤ count ≤ countMax`; every handler invocation restores the
invariant before it returns; and on a genuine step whose delta'd count
overshoots, the result is the clamped bound without wrap and the opposite
bound with wrap, so `get()` lands on `rmax`/`rmin` accordingly. -/
theorem C2_bounds_invariant :
    ∀ (s t : ENCState) (a b : Bool) (rmin rmax rstep rvalue : Int) (rloop : Bool),
      (rmin ≤ rvalue → rvalue ≤ rmax →
        (ENC_set rmin rmax rstep rvalue rloop s).countMin
            ≤ (ENC_set rmin rmax rstep rvalue rloop s).count
        ∧ (ENC_set rmin rmax rstep rvalue rloop s).count
            ≤ (ENC_set rmin rmax rstep rvalue rloop s).countMax)
      ∧ (t.countMin ≤ t.count → t.count ≤ t.countMax →
          t.countMin ≤ (ISR a b t).count ∧ (ISR a b t).count ≤ t.countMax)
      ∧ (a ≠ s.a0 → b ≠ s.b0 → rmin ≤ rmax →
          ((ENC_set rmin rmax rstep rvalue rloop s).countMax
              < (ENC_set rmin rmax rstep rvalue rloop s).count
                + ENC_delta a b (ENC_set rmin rmax rstep rvalue rloop s) →
            ENC_get (ISR a b (ENC_set rmin rmax rstep rvalue rloop s))
              = if rloop then rmin else rmax)
          ∧ ((ENC_set rmin rmax rstep rvalue rloop s).count
                + ENC_delta a b (ENC_set rmin rmax rstep rvalue rloop s)
              < (ENC_set rmin rmax rstep rvalue rloop s).countMin →
            ENC_get (ISR a b (ENC_set rmin rmax rstep rvalue rloop s))
              = if rloop then rmax else rmin)) := by
  intro s t a b rmin rmax rstep rvalue rloop
  refine ⟨fun h1 h2 => ?_, fun h1 h2 => ?_, fun ha hb hmm => ?_⟩
  · simp only [ENC_set]
    constructor <;> omega
  · by_cases ha : a = t.a0
    · rw [ISR_a_unchanged a b t ha]
      exact ⟨h1, h2⟩
    · by_cases hb : b = t.b0
      · rw [ISR_b_unchanged a b t ha hb]
        exact ⟨h1, h2⟩
      · rw [ISR_step a b t ha hb]
        exact ENC_clamp_mem t _ (le_trans h1 h2)
  · have hmm2 : (ENC_set rmin rmax rstep rvalue rloop s).countMin
        ≤ (ENC_set rmin rmax rstep rvalue rloop s).countMax := by
      simp only [ENC_set]
      omega
    have ha2 : a ≠ (ENC_set rmin rmax rstep rvalue rloop s).a0 := by
      simpa [ENC_set] using ha
    have hb2 : b ≠ (ENC_set rmin rmax rstep rvalue rloop s).b0 := by
      simpa [ENC_set] using hb
    constructor
    · intro hover
      rw [ISR_step a b _ ha2 hb2]
      show Int.fdiv (ENC_clamp _ _) 2 = _
      rw [ENC_clamp_over _ _ hmm2 hover]
      simp only [ENC_set]
      rcases rloop with _ | _
      · simp [Int.fdiv_eq_ediv]
      · simp [Int.fdiv_eq_ediv]
    · intro hunder
      rw [ISR_step a b _ ha2 hb2]
      show Int.fdiv (ENC_clamp _ _) 2 = _
      rw [ENC_clamp_under _ _ hmm2 hunder]
      simp only [ENC_set]
      rcases rloop with _ | _
      · simp [Int.fdiv_eq_ediv]
      · simp [Int.fdiv_eq_ediv]

/-- Witness for C2: the invariant is preserved across a concrete step. -/
theorem C2_witness :
    ((ENC_set 2 15 1 15 false ENC_init).countMin ≤ (ENC_set 2 15 1 15 false ENC_init).count
      ∧ (ENC_set 2 15 1 15 false ENC_init).count ≤ (ENC_set 2 15 1 15 false ENC_init).countMax)
    ∧ ((ENC_set 2 15 1 15 false ENC_init).countMin
        ≤ (ISR true true (ENC_set 2 15 1 15 false ENC_init)).count
      ∧ (ISR true true (ENC_set 2 15 1 15 false ENC_init)).count
        ≤ (ENC_set 2 15 1 15 false ENC_init).countMax) :=
  ⟨(C2_bounds_invariant ENC_init (ENC_set 2 15 1 15 false ENC_init) true true
      2 15 1 15 false).1 (by decide) (by decide),
   (C2_bounds_invariant ENC_init (ENC_set 2 15 1 15 false ENC_init) true true
      2 15 1 15 false).2.1 (by decide) (by decide)⟩

/-- One clockwise detent seen from the steady state reached after the first
detent: stored levels `(0,1)`, stored parity `false`; the two A-edge handler
invocations add `step` each (no parity flip), returning to the same stored
levels with the count advanced by `2 * step`. -/
theorem cw_pair (lp : Bool) (c mn mx st : Int)
    (h1 : 0 < st) (h2 : mn ≤ c) (h3 : c + 2 * st ≤ mx) :
    ISR false true (ISR true false ⟨false, true, false, lp, c, mn, mx, st⟩)
      = ⟨false, true, false, lp, c + 2 * st, mn, mx, st⟩ := by
  have hd1 : ENC_delta true false ⟨false, true, false, lp, c, mn, mx, st⟩ = st := by
    simp [ENC_delta]
  have e1 : ISR true false ⟨false, true, false, lp, c, mn, mx, st⟩
      = ⟨true, false, false, lp, c + st, mn, mx, st⟩ := by
    rw [ISR_step true false _ (by simp) (by simp), hd1,
      ENC_clamp_eq_self _ _ (by show mn ≤ c + st; omega) (by show c + st ≤ mx; omega)]
    rfl
  have hd2 : ENC_delta false true ⟨true, false, false, lp, c + st, mn, mx, st⟩ = st := by
    simp [ENC_delta]
  rw [e1, ISR_step false true _ (by simp) (by simp), hd2,
    ENC_clamp_eq_self _ _ (by show mn ≤ c + st + st; omega) (by show c + st + st ≤ mx; omega)]
  simp [ENCState.mk.injEq]
  omega

/-- The first clockwise detent from the initial stored levels `(0,0)` with
parity `true`: the first A-edge only records A (B has not moved yet); the
second is a genuine step whose parity flip doubles the delta, so the count
still advances by `2 * step` and the stored state reaches the steady
`(0,1)`/parity-`false` shape. -/
theorem cw_first_pair (lp : Bool) (c mn mx st : Int)
    (h1 : 0 < st) (h2 : mn ≤ c) (h3 : c + 2 * st ≤ mx) :
    ISR false true (ISR true false ⟨false, false, true, lp, c, mn, mx, st⟩)
      = ⟨false, true, false, lp, c + 2 * st, mn, mx, st⟩ := by
  have e1 : ISR true false ⟨false, false, true, lp, c, mn, mx, st⟩
      = ⟨true, false, true, lp, c, mn, mx, st⟩ := by
    rw [ISR_b_unchanged true false _ (by simp) (by simp)]
  have hd2 : ENC_delta false true ⟨true, false, true, lp, c, mn, mx, st⟩ = st + st := by
    simp [ENC_delta]
  rw [e1, ISR_step false true _ (by simp) (by simp), hd2,
    ENC_clamp_eq_self _ _ (by show mn ≤ c + (st + st); omega) (by show c + (st + st) ≤ mx; omega)]
  simp [ENCState.mk.injEq]
  omega

/-- One counter-clockwise detent from the initial stored levels `(0,0)` with
parity `true`: both A-edge invocations are genuine steps with equal new
levels and no parity flip, each subtracting `step`; the stored state returns
to the same `(0,0)`/parity-`true` shape. -/
theorem ccw_pair (lp : Bool) (c mn mx st : Int)
    (h1 : 0 < st) (h2 : mn ≤ c - 2 * st) (h3 : c ≤ mx) :
    ISR false false (ISR true true ⟨false, false, true, lp, c, mn, mx, st⟩)
      = ⟨false, false, true, lp, c - 2 * st, mn, mx, st⟩ := by
  have hd1 : ENC_delta true true ⟨false, false, true, lp, c, mn, mx, st⟩ = -st := by
    simp [ENC_delta]
  have e1 : ISR true true ⟨false, false, true, lp, c, mn, mx, st⟩
      = ⟨true, true, true, lp, c + -st, mn, mx, st⟩ := by
    rw [ISR_step true true _ (by simp) (by simp), hd1,
      ENC_clamp_eq_self _ _ (by show mn ≤ c + -st; omega) (by show c + -st ≤ mx; omega)]
    rfl
  have hd2 : ENC_delta false false ⟨true, true, true, lp, c + -st, mn, mx, st⟩ = -st := by
    simp [ENC_delta]
  rw [e1, ISR_step false false _ (by simp) (by simp), hd2,
    ENC_clamp_eq_self _ _ (by show mn ≤ c + -st + -st; omega) (by show c + -st + -st ≤ mx; omega)]
  simp [ENCState.mk.injEq]
  omega

/-- Iterating clockwise detents from the steady stored shape advances the
count by `2 * step` per detent, with bounds wide enough not to clamp. -/
theorem cw_run (k : Nat) : ∀ (lp : Bool) (c mn mx st : Int),
    0 < st → mn ≤ c → c + 2 * st * (k : Int) ≤ mx →
    ENC_run (cwSeq k) ⟨false, true, false, lp, c, mn, mx, st⟩
      = ⟨false, true, false, lp, c + 2 * st * (k : Int), mn, mx, st⟩ := by
  induction k with
  | zero =>
    intro lp c mn mx st h1 h2 h3
    simp [ENC_run, cwSeq]
  | succ j ih =>
    intro lp c mn mx st h1 h2 h3
    have hk : (0:Int) ≤ 2 * st * (j : Int) := by positivity
    have hr : c + 2 * st * ((j : Int) + 1) = c + 2 * st + 2 * st * (j : Int) := by ring
    have h3' : c + 2 * st + 2 * st * (j : Int) ≤ mx := by
      push_cast at h3
      linarith
    have hpair : c + 2 * st ≤ mx := by linarith
    have e1 : ENC_run (cwSeq (j + 1)) ⟨false, true, false, lp, c, mn, mx, st⟩
        = ENC_run (cwSeq j) (ISR false true (ISR true false ⟨false, true, false, lp, c, mn, mx, st⟩)) := by
      simp [cwSeq, ENC_run]
    rw [e1, cw_pair lp c mn mx st h1 h2 hpair,
      ih lp (c + 2 * st) mn mx st h1 (by linarith) h3']
    simp [ENCState.mk.injEq]
    ring

/-- Iterating counter-clockwise detents from the initial stored shape lowers
the count by `2 * step` per detent, with bounds wide enough not to clamp. -/
theorem ccw_run (k : Nat) : ∀ (lp : Bool) (c mn mx st : Int),
    0 < st → mn ≤ c - 2 * st * (k : Int) → c ≤ mx →
    ENC_run (ccwSeq k) ⟨false, false, true, lp, c, mn, mx, st⟩
      = ⟨false, false, true, lp, c - 2 * st * (k : Int), mn, mx, st⟩ := by
  induction k with
  | zero =>
    intro lp c mn mx st h1 h2 h3
    simp [ENC_run, ccwSeq]
  | succ j ih =>
    intro lp c mn mx st h1 h2 h3
    have hk : (0:Int) ≤ 2 * st * (j : Int) := by positivity
    have hr : c - 2 * st * ((j : Int) + 1) = c - 2 * st - 2 * st * (j : Int) := by ring
    have h2' : mn ≤ c - 2 * st - 2 * st * (j : Int) := by
      push_cast at h2
      linarith
    have e1 : ENC_run (ccwSeq (j + 1)) ⟨false, false, true, lp, c, mn, mx, st⟩
        = ENC_run (ccwSeq j) (ISR false false (ISR true true ⟨false, false, true, lp, c, mn, mx, st⟩)) := by
      simp [ccwSeq, ENC_run]
    rw [e1, ccw_pair lp c mn mx st h1 (by linarith) h3,
      ih lp (c - 2 * st) mn mx st h1 h2' (by linarith)]
    simp [ENCState.mk.injEq]
    ring

/-- C3: from `configure(rmin, rmax, step, initial, wrap)` with a positive
step and bounds wide enough not to clamp or wrap, `N = 4k` clean clockwise
quadrature edges — of which only the A-line edges invoke the handler, two per
detent — increase `get()` by exactly `N/4 × step`, and the mirrored
counter-clockwise sequence decreases it by exactly `N/4 × step`. -/
theorem C3_quadrature_counting :
    ∀ (rmin rmax st i : Int) (k : Nat) (lp : Bool),
      0 < st → rmin ≤ i - st * (k : Int) → i + st * (k : Int) ≤ rmax →
      ENC_get (ENC_run (cwSeq k) (ENC_set rmin rmax st i lp ENC_init))
          = i + st * (k : Int)
      ∧ ENC_get (ENC_run (ccwSeq k) (ENC_set rmin rmax st i lp ENC_init))
          = i - st * (k : Int) := by
  intro rmin rmax st i k lp h1 h2 h3
  have hk : (0:Int) ≤ st * (k : Int) := by positivity
  have hset : ENC_set rmin rmax st i lp ENC_init
      = ⟨false, false, true, lp, i * 2, rmin * 2, rmax * 2, st⟩ := rfl
  constructor
  · rw [hset]
    cases k with
    | zero =>
      show Int.fdiv (i * 2) 2 = i + st * ((0:Nat) : Int)
      rw [fdiv_mul_two]
      simp
    | succ j =>
      have hj : (0:Int) ≤ 2 * st * (j : Int) := by positivity
      have hcast : ((j + 1 : Nat) : Int) = (j : Int) + 1 := by push_cast; ring
      have hup : i * 2 + 2 * st + 2 * st * (j : Int) ≤ rmax * 2 := by
        rw [hcast] at h3
        linarith
      have e1 : ENC_run (cwSeq (j + 1)) ⟨false, false, true, lp, i * 2, rmin * 2, rmax * 2, st⟩
          = ENC_run (cwSeq j)
              (ISR false true (ISR true false ⟨false, false, true, lp, i * 2, rmin * 2, rmax * 2, st⟩)) := by
        simp [cwSeq, ENC_run]
      have hmn : rmin * 2 ≤ i * 2 := by
        rw [hcast] at h2
        linarith
      rw [e1, cw_first_pair lp (i * 2) (rmin * 2) (rmax * 2) st h1 hmn (by linarith),
        cw_run j lp (i * 2 + 2 * st) (rmin * 2) (rmax * 2) st h1 (by linarith) hup]
      show Int.fdiv (i * 2 + 2 * st + 2 * st * (j : Int)) 2 = _
      have hmul : i * 2 + 2 * st + 2 * st * (j : Int) = (i + st * ((j : Int) + 1)) * 2 := by
        ring
      rw [hmul, fdiv_mul_two, hcast]
  · rw [hset]
    have hmn : rmin * 2 ≤ i * 2 - 2 * st * (k : Int) := by linarith
    rw [ccw_run k lp (i * 2) (rmin * 2) (rmax * 2) st h1 hmn (by linarith)]
    show Int.fdiv (i * 2 - 2 * st * (k : Int)) 2 = _
    have hmul : i * 2 - 2 * st * (k : Int) = (i - st * (k : Int)) * 2 := by
      ring
    rw [hmul, fdiv_mul_two]

/-- Witness for C3: three clockwise and counter-clockwise detents with step 1
from value 10 in range `[0, 100]`. -/
theorem C3_witness :
    ENC_get (ENC_run (cwSeq 3) (ENC_set 0 100 1 10 false ENC_init)) = 10 + 1 * ((3:Nat) : Int)
    ∧ ENC_get (ENC_run (ccwSeq 3) (ENC_set 0 100 1 10 false ENC_init)) = 10 - 1 * ((3:Nat) : Int) :=
  C3_quadrature_counting 0 100 1 10 3 false (by decide) (by decide) (by decide)

/-! ## Controller lemmas -/

/-- The state field after a button press is the incremented state, wrapped to
0 above 3. -/
theorem pressButton_state (s : SysState) :
    (pressButton s).state = if s.state + 1 > 3 then 0 else s.state + 1 := by
  simp only [pressButton]
  split_ifs <;> rfl

/-- For an in-range state, a button press advances it modulo 4. -/
theorem pressButton_state_mod (s : SysState) (h : s.state ≤ 3) :
    (pressButton s).state = (s.state + 1) % 4 := by
  rw [pressButton_state]
  split_ifs <;> omega

/-- One ANIMATE tick leaves every field except `anim` and `counter`
unchanged. -/
theorem ANIM_step_fields (s : SysState) :
    (ANIM_step s).bright = s.bright ∧ (ANIM_step s).hue = s.hue
    ∧ (ANIM_step s).state = s.state ∧ (ANIM_step s).neoOn = s.neoOn
    ∧ (ANIM_step s).enc = s.enc := by
  simp only [ANIM_step, ANIM_tick]
  split_ifs <;> simp

/-! ## Claim theorems: controller -/

/-- C8: every confirmed button press advances the state to `(state+1) mod 4`
(four presses return to the initial state); entering OFF disables the LED
rail; entering WHITE enables the rail and configures the encoder to
`[2, 15]`, step 1, no wrap, initial value the current brightness; entering
ANIMATE reconfigures nothing; entering SOLID configures the encoder to
`[0, 48]`, step 1, wrap, initial value the current hue. -/
theorem C8_button_state_machine :
    ∀ s : SysState, s.state ≤ 3 →
      (pressButton s).state = (s.state + 1) % 4
      ∧ (s.state = 3 → pressButton s = { s with state := 0, neoOn := false })
      ∧ (s.state = 0 → pressButton s
          = { s with state := 1, neoOn := true,
                     enc := ENC_set 2 15 1 (s.bright : Int) false s.enc })
      ∧ (s.state = 1 → pressButton s = { s with state := 2 })
      ∧ (s.state = 2 → pressButton s
          = { s with state := 3, enc := ENC_set 0 48 1 (s.hue : Int) true s.enc })
      ∧ (pressButton^[4] s).state = s.state := by
  intro s h
  refine ⟨pressButton_state_mod s h, fun h3 => ?_, fun h0 => ?_, fun h1 => ?_,
    fun h2 => ?_, ?_⟩
  · simp [pressButton, h3]
  · simp [pressButton, h0]
  · simp [pressButton, h1]
  · simp [pressButton, h2]
  · have e1 := pressButton_state_mod s h
    have hle1 : (pressButton s).state ≤ 3 := by omega
    have e2 := pressButton_state_mod _ hle1
    have hle2 : (pressButton (pressButton s)).state ≤ 3 := by omega
    have e3 := pressButton_state_mod _ hle2
    have hle3 : (pressButton (pressButton (pressButton s))).state ≤ 3 := by omega
    have e4 := pressButton_state_mod _ hle3
    have i1 : pressButton^[4] s = pressButton (pressButton^[3] s) :=
      Function.iterate_succ_apply' pressButton 3 s
    have i2 : pressButton^[3] s = pressButton (pressButton^[2] s) :=
      Function.iterate_succ_apply' pressButton 2 s
    have i3 : pressButton^[2] s = pressButton (pressButton^[1] s) :=
      Function.iterate_succ_apply' pressButton 1 s
    have i4 : pressButton^[1] s = pressButton s := by
      rw [Function.iterate_one]
    rw [i1, i2, i3, i4, e4, e3, e2, e1]
    omega

/-- Witness for C8: four presses from the initial (OFF) state return to
OFF. -/
theorem C8_witness :
    sysInit.state ≤ 3 ∧ (pressButton^[4] sysInit).state = sysInit.state :=
  ⟨by decide, (C8_button_state_machine sysInit (by decide)).2.2.2.2.2⟩

/-- C9: any number of ANIMATE poll ticks leaves the retained scalars
`bright` and `hue` (and the machine state, LED rail and encoder
configuration) unchanged — only the transient animation phase and delay
counter are mutated — so brightness and hue set in WHITE and SOLID survive a
visit to ANIMATE. -/
theorem C9_animate_preserves_scalars :
    ∀ (n : Nat) (s : SysState),
      (ANIM_step^[n] s).bright = s.bright
      ∧ (ANIM_step^[n] s).hue = s.hue
      ∧ (ANIM_step^[n] s).state = s.state
      ∧ (ANIM_step^[n] s).neoOn = s.neoOn
      ∧ (ANIM_step^[n] s).enc = s.enc := by
  intro n
  induction n with
  | zero =>
    intro s
    simp
  | succ m ih =>
    intro s
    rw [Function.iterate_succ_apply]
    obtain ⟨e1, e2, e3, e4, e5⟩ := ih (ANIM_step s)
    obtain ⟨f1, f2, f3, f4, f5⟩ := ANIM_step_fields s
    exact ⟨e1.trans f1, e2.trans f2, e3.trans f3, e4.trans f4, e5.trans f5⟩
